import Mathlib

/-!
# Verification of the dmesg kernel-ring-buffer reader

Shallow embedding of `pkg/dmesg/dmesg.go` (package `dmesg`).

Bytes are modelled as `Nat` (byte values), byte slices as `List Nat`.
Relevant byte constants: 10 = newline, 32 = space, 44 = comma,
45 = dash, 59 = semicolon, 61 = equals sign, 43 = plus, 48..57 = digits.

Go `uint64` arithmetic is modelled on `Nat` (all values produced stay
below 2^64 by construction), `int64` on `Int`.  A Go runtime panic
(index out of range) is modelled explicitly: functions that can panic
return an `Option` (`none` = panic) or a dedicated result constructor.
-/

/-- Result of Go `strconv.ParseUint`: the value, or a syntax error
(result value 0) or a range error (result value `MaxUint64`). -/
inductive PURes where
  | ok (n : Nat)
  | syntaxErr
  | rangeErr
deriving DecidableEq

/-- Loop of Go `strconv.ParseUint(s, 10, 64)` over the digits.
`1844674407370955162` is Go's `cutoff = MaxUint64/10 + 1` and
`18446744073709551615` is `MaxUint64`: on overflow Go returns
`MaxUint64` with a range error, on a non-digit it returns 0 with a
syntax error, in both cases abandoning the scan immediately. -/
def puLoop : Nat → List Nat → PURes
  | n, [] => .ok n
  | n, c :: rest =>
    if 48 ≤ c ∧ c ≤ 57 then
      if 1844674407370955162 ≤ n then .rangeErr
      else if 18446744073709551615 < n * 10 + (c - 48) then .rangeErr
      else puLoop (n * 10 + (c - 48)) rest
    else .syntaxErr

/-- Go `strconv.ParseUint(string(s), 10, 64)`, keeping the error kind. -/
def goParseUintCore (s : List Nat) : PURes :=
  if s = [] then .syntaxErr else puLoop 0 s

/-- First return value of Go `val, _ := strconv.ParseUint(string(s), 10, 64)`:
0 on a syntax error, `MaxUint64` on a range error. -/
def goParseUint (s : List Nat) : Nat :=
  match goParseUintCore s with
  | .ok n => n
  | .syntaxErr => 0
  | .rangeErr => 18446744073709551615

/-- First return value of Go `val, _ := strconv.ParseInt(string(s), 10, 64)`:
optional sign, then `ParseUint` of the body; 0 on a syntax error,
`MaxInt64`/`MinInt64` on a range error (`cutoff = 1 << 63`). -/
def goParseInt (s : List Nat) : Int :=
  match s with
  | [] => 0
  | c :: rest =>
    let body := if c = 43 then rest else if c = 45 then rest else s
    match goParseUintCore body with
    | .syntaxErr => 0
    | .rangeErr => if c = 45 then -(2 ^ 63) else (2 ^ 63 - 1 : Int)
    | .ok un =>
      if ¬c = 45 ∧ 2 ^ 63 ≤ un then (2 ^ 63 - 1 : Int)
      else if c = 45 ∧ 2 ^ 63 < un then -(2 ^ 63)
      else if c = 45 then -(un : Int) else (un : Int)

/-- Go `bytes.IndexByte(data, b)`: index of the first occurrence,
`none` for Go's `-1`. -/
def indexByte (data : List Nat) (b : Nat) : Option Nat :=
  match data with
  | [] => none
  | c :: rest => if c = b then some 0 else (indexByte rest b).map (· + 1)

/-- Go `bytes.Split(data, sep)` for a single-byte separator `sep`.
`bytes.Split` of the empty slice is one empty piece. -/
def splitByte (data : List Nat) (sep : Nat) : List (List Nat) :=
  match data with
  | [] => [[]]
  | c :: rest =>
    if c = sep then [] :: splitByte rest sep
    else
      match splitByte rest sep with
      | [] => [[c]]
      | piece :: more => (c :: piece) :: more

/-- The decoded message, Go struct `Msg` (strings as byte lists, the
`DeviceInfo` Go map as an association list with overwriting insert). -/
structure Msg where
  Level : Nat
  Facility : Nat
  Seq : Nat
  TsUsec : Int
  Caller : List Nat
  IsFragment : Bool
  Text : List Nat
  DeviceInfo : List (List Nat × List Nat)
deriving DecidableEq

/-- Go map assignment `m[k] = v`: overwrite the binding of `k` if present,
otherwise add it. -/
def mapInsert (m : List (List Nat × List Nat)) (k v : List Nat) :
    List (List Nat × List Nat) :=
  match m with
  | [] => [(k, v)]
  | (k', v') :: rest => if k' = k then (k, v) :: rest else (k', v') :: mapInsert rest k v

/-- Go map lookup `m[k]`. -/
def mapGet (m : List (List Nat × List Nat)) (k : List Nat) : Option (List Nat) :=
  match m with
  | [] => none
  | (k', v') :: rest => if k' = k then some v' else mapGet rest k

/-- Result of `parseData`: Go returns `*Msg` (`nil` = `invalid`), and the
function can also panic with an index-out-of-range runtime error. -/
inductive PResult where
  | panic
  | invalid
  | ok (m : Msg)
deriving DecidableEq

/-- Is the result a produced message? -/
def PResult.isOk : PResult → Bool
  | .ok _ => true
  | _ => false

/-- Is the result the invalid-record signal (Go `nil`)? -/
def PResult.isInvalid : PResult → Bool
  | .invalid => true
  | _ => false

/-- The message of an `ok` result. -/
def msgOf : PResult → Option Msg
  | .ok m => some m
  | _ => none

/-- The prefix-field loop of `parseData` (dmesg.go lines 43-60): iterate
over the comma-separated fields with a switch on the index.  Case 3 reads
`prefix[0]`, which panics (modelled as `none`) when that field is empty.
Fields past index 4 are ignored; missing fields keep the zero value. -/
def parsePrefixFields (fields : List (List Nat)) : Option Msg :=
  match fields[3]? with
  | some [] => none
  | f3opt =>
    some
      { Level := goParseUint (fields.getD 0 []) &&& 7
        Facility := goParseUint (fields.getD 0 []) &&& (2 ^ 64 - 8)
        Seq := goParseUint (fields.getD 1 [])
        TsUsec := goParseInt (fields.getD 2 [])
        Caller := fields.getD 4 []
        IsFragment := match f3opt with
                      | some (c :: _) => c != 45
                      | _ => false
        Text := []
        DeviceInfo := [] }

/-- The device-info loop of `parseData` (dmesg.go lines 74-85): for each
continuation line, read `info[0]` (panic, modelled `none`, on an empty
line), skip lines not starting with a space, split on `=` and keep the
pair only when the split has exactly two parts. -/
def buildInfo : List (List Nat) → List (List Nat × List Nat) →
    Option (List (List Nat × List Nat))
  | [], m => some m
  | line :: more, m =>
    match line with
    | [] => none
    | c :: _ =>
      if c = 32 then
        match splitByte line 61 with
        | [k, v] => buildInfo more (mapInsert m k v)
        | _ => buildInfo more m
      else buildInfo more m

/-- Go `parseData(data []byte) *Msg` (dmesg.go lines 34-88).  Steps:
first `;` (else invalid), prefix-field loop, first `\n` (must exist,
strictly after the `;`, else invalid), text between them; if the `\n`
is the last byte the record is invalid; otherwise the bytes strictly
between the `\n` and the final byte are split on `\n` into
continuation lines for the device-info loop. -/
def parseData (data : List Nat) : PResult :=
  match indexByte data 59 with
  | none => .invalid
  | some prefixEnd =>
    match parsePrefixFields (splitByte (data.take prefixEnd) 44) with
    | none => .panic
    | some msg0 =>
      match indexByte data 10 with
      | none => .invalid
      | some textEnd =>
        if textEnd ≤ prefixEnd then .invalid
        else if textEnd = data.length - 1 then .invalid
        else
          match buildInfo
              (splitByte ((data.drop (textEnd + 1)).take (data.length - 1 - (textEnd + 1))) 10)
              [] with
          | none => .panic
          | some di =>
            .ok { msg0 with
                  Text := (data.drop (prefixEnd + 1)).take (textEnd - (prefixEnd + 1))
                  DeviceInfo := di }

/-! ## The fetch orchestrator (dmesg.go lines 90-141)

A `fetch` call is modelled against a trace of outcomes of the successive
`syscall.Read` calls on `/dev/kmsg`.  Each read either delivers the bytes
of one record (written into a freshly allocated zeroed buffer of
`bufSize` bytes; the returned byte count is ignored by the Go code) or
fails with an errno.  The loop treats errno `EINVAL` (22, record too
large for the buffer) as recoverable and continues, and stops on any
other errno; after the loop, errno `EAGAIN` (11, no more data) is
suppressed and any other final errno is returned as the call's error.
An exhausted trace models a device that reports `EAGAIN` from then on.
Opening the device and `conn.Read` itself are assumed to succeed; their
failure paths contain no further logic. -/

/-- Outcome of one `syscall.Read` on the device. -/
inductive ReadResult where
  | ok (data : List Nat)
  | errR (errno : Nat)
deriving DecidableEq

/-- errno of a too-small read buffer. -/
def EINVAL : Nat := 22

/-- errno for no data currently available. -/
def EAGAIN : Nat := 11

/-- The buffer after one read: `make([]byte, bufSize)` is all zeros and the
read writes its bytes at the front.  The whole buffer is used by the Go
code regardless of the byte count returned by the read. -/
def mkBuf (bufSize : Nat) (data : List Nat) : List Nat :=
  (data ++ List.replicate bufSize 0).take bufSize

/-- Go struct `dmesg`: raw records and parsed messages. -/
structure DmesgT where
  raw : List (List Nat)
  msg : List Msg
deriving DecidableEq

/-- Result of `fetch`: the accumulated records and final error, or a
runtime panic propagated from `parseData`. -/
inductive FetchResult where
  | panic
  | done (d : DmesgT) (err : Option Nat)
deriving DecidableEq

/-- One loop body tail of `fetch` (dmesg.go lines 123-131): append the raw
buffer, or parse it and append the message only when one is produced.
`none` models a panic inside `parseData`. -/
def appendRec (fetchRaw : Bool) (d : DmesgT) (buf : List Nat) : Option DmesgT :=
  if fetchRaw then some { d with raw := d.raw ++ [buf] }
  else
    match parseData buf with
    | .panic => none
    | .invalid => some d
    | .ok m => some { d with msg := d.msg ++ [m] }

/-- The read loop of `fetch` (dmesg.go lines 111-133) together with the
final error classification (lines 136-138): a non-`EINVAL` read error
stops the loop and becomes the call's error unless it is `EAGAIN`;
an `EINVAL` read still reaches the append with its untouched zeroed
buffer; an exhausted trace behaves like an immediate `EAGAIN`. -/
def fetchLoop (bufSize : Nat) (fetchRaw : Bool) :
    List ReadResult → DmesgT → FetchResult
  | [], d => .done d none
  | .ok data :: rest, d =>
    match appendRec fetchRaw d (mkBuf bufSize data) with
    | none => .panic
    | some d' => fetchLoop bufSize fetchRaw rest d'
  | .errR e :: rest, d =>
    if e = EINVAL then
      match appendRec fetchRaw d (mkBuf bufSize []) with
      | none => .panic
      | some d' => fetchLoop bufSize fetchRaw rest d'
    else .done d (if e = EAGAIN then none else some e)

/-- Go `fetch(bufSize, fetchRaw)` run against a trace of read outcomes. -/
def fetch (bufSize : Nat) (fetchRaw : Bool) (reads : List ReadResult) : FetchResult :=
  fetchLoop bufSize fetchRaw reads { raw := [], msg := [] }

/-- The reads consumed by the loop: everything up to (excluding) the first
outcome that terminates it, i.e. the first error other than `EINVAL`. -/
def consumed : List ReadResult → List ReadResult
  | [] => []
  | .ok data :: rest => .ok data :: consumed rest
  | .errR e :: rest => if e = EINVAL then .errR e :: consumed rest else []

/-- The buffer contributed by one consumed read: a failed (`EINVAL`) read
leaves the freshly allocated buffer all zeros. -/
def bufOf (bufSize : Nat) : ReadResult → List Nat
  | .ok data => mkBuf bufSize data
  | .errR _ => mkBuf bufSize []

/-- The error `fetch` reports for a trace: the first non-`EINVAL` errno,
with `EAGAIN` suppressed. -/
def errOf : List ReadResult → Option Nat
  | [] => none
  | .ok _ :: rest => errOf rest
  | .errR e :: rest =>
    if e = EINVAL then errOf rest else if e = EAGAIN then none else some e


/-! ## Helper lemmas: byte search and split -/

theorem indexByte_eq_none {a : List Nat} {c : Nat} (h : c ∉ a) :
    indexByte a c = none := by
  induction a with
  | nil => rfl
  | cons x xs ih =>
    simp only [List.mem_cons, not_or] at h
    have hxc : ¬x = c := fun hh => h.1 hh.symm
    simp [indexByte, hxc, ih h.2]

theorem indexByte_append_cons {a : List Nat} {c : Nat} (b : List Nat)
    (h : c ∉ a) : indexByte (a ++ c :: b) c = some a.length := by
  induction a with
  | nil => simp [indexByte]
  | cons x xs ih =>
    simp only [List.mem_cons, not_or] at h
    have hxc : ¬x = c := fun hh => h.1 hh.symm
    simp [indexByte, hxc, ih h.2]

theorem splitByte_of_not_mem {a : List Nat} {c : Nat} (h : c ∉ a) :
    splitByte a c = [a] := by
  induction a with
  | nil => rfl
  | cons x xs ih =>
    simp only [List.mem_cons, not_or] at h
    have hxc : ¬x = c := fun hh => h.1 hh.symm
    simp [splitByte, hxc, ih h.2]

theorem splitByte_append_cons {a : List Nat} {c : Nat} (b : List Nat)
    (h : c ∉ a) : splitByte (a ++ c :: b) c = a :: splitByte b c := by
  induction a with
  | nil => simp [splitByte]
  | cons x xs ih =>
    simp only [List.mem_cons, not_or] at h
    have hxc : ¬x = c := fun hh => h.1 hh.symm
    simp [splitByte, hxc, ih h.2]

/-- `splitByte` never returns an empty list of pieces. -/
theorem splitByte_ne_nil (data : List Nat) (sep : Nat) : splitByte data sep ≠ [] := by
  cases data with
  | nil => simp [splitByte]
  | cons c rest =>
    simp only [splitByte]
    split
    · simp
    · split <;> simp

/-! ## Helper lemmas: the Go integer parsers on decimal digit strings -/

/-- All bytes are ASCII decimal digits. -/
def allDigits (s : List Nat) : Prop := ∀ c ∈ s, 48 ≤ c ∧ c ≤ 57

instance (s : List Nat) : Decidable (allDigits s) := by
  unfold allDigits; infer_instance

/-- The numeric value of a decimal digit string. -/
def digitsVal (s : List Nat) : Nat := s.foldl (fun a c => a * 10 + (c - 48)) 0

theorem digitsFoldl_le {s : List Nat} (acc : Nat) :
    acc ≤ s.foldl (fun a c => a * 10 + (c - 48)) acc := by
  induction s generalizing acc with
  | nil => simp
  | cons c rest ih =>
    simp only [List.foldl_cons]
    exact le_trans (by omega) (ih (acc * 10 + (c - 48)))

theorem puLoop_ok {s : List Nat} (acc : Nat) (hd : allDigits s)
    (hb : s.foldl (fun a c => a * 10 + (c - 48)) acc ≤ 18446744073709551615) :
    puLoop acc s = .ok (s.foldl (fun a c => a * 10 + (c - 48)) acc) := by
  induction s generalizing acc with
  | nil => simp [puLoop]
  | cons c rest ih =>
    have hc : 48 ≤ c ∧ c ≤ 57 := hd c (List.mem_cons_self c rest)
    have hd' : allDigits rest := fun x hx => hd x (List.mem_cons_of_mem c hx)
    simp only [List.foldl_cons] at hb
    have hstep : acc * 10 + (c - 48) ≤ 18446744073709551615 :=
      le_trans (digitsFoldl_le (acc * 10 + (c - 48))) hb
    simp only [puLoop, hc, and_self, if_true, List.foldl_cons]
    rw [if_neg (by omega), if_neg (by omega), ih _ hd' hb]

theorem goParseUintCore_digits {s : List Nat} (hne : s ≠ []) (hd : allDigits s)
    (hb : digitsVal s < 2 ^ 64) : goParseUintCore s = .ok (digitsVal s) := by
  have : (2 : Nat) ^ 64 = 18446744073709551616 := by norm_num
  rw [goParseUintCore, if_neg hne]
  exact puLoop_ok 0 hd (by unfold digitsVal at hb; omega)

theorem goParseUint_digits {s : List Nat} (hne : s ≠ []) (hd : allDigits s)
    (hb : digitsVal s < 2 ^ 64) : goParseUint s = digitsVal s := by
  rw [goParseUint, goParseUintCore_digits hne hd hb]

theorem goParseInt_digits {s : List Nat} (hne : s ≠ []) (hd : allDigits s)
    (hb : digitsVal s < 2 ^ 63) : goParseInt s = (digitsVal s : Int) := by
  match s, hne with
  | c :: rest, _ =>
    have hc : 48 ≤ c ∧ c ≤ 57 := hd c (List.mem_cons_self c rest)
    have h43 : ¬c = 43 := by omega
    have h45 : ¬c = 45 := by omega
    have hb64 : digitsVal (c :: rest) < 2 ^ 64 := lt_trans hb (by norm_num)
    simp [goParseInt, h43, h45,
      goParseUintCore_digits (List.cons_ne_nil c rest) hd hb64]
    intro h
    norm_num at hb
    omega

theorem goParseInt_neg_digits {u : List Nat} (hne : u ≠ []) (hd : allDigits u)
    (hb : digitsVal u ≤ 2 ^ 63) : goParseInt (45 :: u) = -(digitsVal u : Int) := by
  have hb64 : digitsVal u < 2 ^ 64 := lt_of_le_of_lt hb (by norm_num)
  simp [goParseInt, goParseUintCore_digits hne hd hb64]
  intro h
  norm_num at hb
  omega

/-! ## Decomposition of `parseData` on a structurally valid record -/

/-- `parseData` on a record of shape `pre ; text \n rest` with a non-empty
tail after the newline: the first `;` ends the prefix, the first `\n` ends
the text, and the device-info loop runs on the tail without its final
byte, split on `\n`. -/
theorem parseData_decomp (pre text rest : List Nat)
    (h59 : 59 ∉ pre) (h10p : 10 ∉ pre) (h10t : 10 ∉ text) (hr : rest ≠ []) :
    parseData (pre ++ 59 :: (text ++ 10 :: rest)) =
      match parsePrefixFields (splitByte pre 44) with
      | none => .panic
      | some msg0 =>
        match buildInfo (splitByte rest.dropLast 10) [] with
        | none => .panic
        | some di => .ok { msg0 with Text := text, DeviceInfo := di } := by
  have hrlen : 0 < rest.length := List.length_pos.mpr hr
  have hassoc1 : pre ++ 59 :: (text ++ 10 :: rest) = (pre ++ 59 :: text) ++ 10 :: rest := by
    simp
  have hassoc2 : pre ++ 59 :: (text ++ 10 :: rest) = (pre ++ [59]) ++ (text ++ 10 :: rest) := by
    simp
  have hassoc3 : pre ++ 59 :: (text ++ 10 :: rest) = ((pre ++ 59 :: text) ++ [10]) ++ rest := by
    simp
  have hA : indexByte (pre ++ 59 :: (text ++ 10 :: rest)) 59 = some pre.length :=
    indexByte_append_cons _ h59
  have h10pre : (10 : Nat) ∉ pre ++ 59 :: text := by
    simp only [List.mem_append, List.mem_cons]
    push_neg
    exact ⟨h10p, by omega, h10t⟩
  have hB : indexByte (pre ++ 59 :: (text ++ 10 :: rest)) 10 =
      some (pre.length + 1 + text.length) := by
    rw [hassoc1, indexByte_append_cons _ h10pre]
    simp only [List.length_append, List.length_cons, Option.some.injEq]
    omega
  have hlen : (pre ++ 59 :: (text ++ 10 :: rest)).length =
      pre.length + 1 + text.length + 1 + rest.length := by
    simp only [List.length_append, List.length_cons]
    omega
  have htake : (pre ++ 59 :: (text ++ 10 :: rest)).take pre.length = pre :=
    List.take_left pre _
  have hdropText : (pre ++ 59 :: (text ++ 10 :: rest)).drop (pre.length + 1) =
      text ++ 10 :: rest := by
    rw [hassoc2]
    exact List.drop_left' (by simp)
  have hdropBody : (pre ++ 59 :: (text ++ 10 :: rest)).drop
      (pre.length + 1 + text.length + 1) = rest := by
    rw [hassoc3]
    exact List.drop_left' (by simp; omega)
  simp only [parseData, hA, htake]
  cases hP : parsePrefixFields (splitByte pre 44) with
  | none => rfl
  | some m0 =>
    simp only [hB, hlen]
    rw [if_neg (by omega), if_neg (by omega)]
    have e1 : pre.length + 1 + text.length - (pre.length + 1) = text.length := by omega
    have e2 : pre.length + 1 + text.length + 1 + rest.length - 1 -
        (pre.length + 1 + text.length + 1) = rest.length - 1 := by omega
    rw [e2, hdropBody]
    rw [hdropText, e1, List.take_left, ← List.dropLast_eq_take]

/-! ## Helper lemmas: the prefix-field loop -/

theorem parsePrefixFields_ne_none {fields : List (List Nat)}
    (h : fields[3]? ≠ some []) : ∃ m, parsePrefixFields fields = some m := by
  rcases hf : fields[3]? with _ | f3
  · exact ⟨_, by unfold parsePrefixFields; rw [hf]⟩
  · cases f3 with
    | nil => exact absurd hf h
    | cons c cs => exact ⟨_, by unfold parsePrefixFields; rw [hf]⟩

/-- The prefix loop on a full five-or-more-field split, with a non-empty
fourth field. -/
theorem parsePrefixFields_cons5 (f0 f1 f2 f4 : List Nat) (c : Nat)
    (cs : List Nat) (ts : List (List Nat)) :
    parsePrefixFields (f0 :: f1 :: f2 :: (c :: cs) :: f4 :: ts) =
      some
        { Level := goParseUint f0 &&& 7
          Facility := goParseUint f0 &&& (2 ^ 64 - 8)
          Seq := goParseUint f1
          TsUsec := goParseInt f2
          Caller := f4
          IsFragment := c != 45
          Text := []
          DeviceInfo := [] } := rfl

/-! ## Helper lemmas: the device-info loop and the Go map -/

theorem mapGet_mapInsert (m : List (List Nat × List Nat)) (k v k' : List Nat) :
    mapGet (mapInsert m k v) k' = if k = k' then some v else mapGet m k' := by
  induction m with
  | nil => simp [mapInsert, mapGet]
  | cons kv rest ih =>
    obtain ⟨k0, v0⟩ := kv
    by_cases h0 : k0 = k
    · subst h0
      simp only [mapInsert, if_pos rfl, mapGet]
      by_cases h1 : k0 = k'
      · subst h1; simp
      · simp [h1]
    · simp only [mapInsert, if_neg h0, mapGet]
      by_cases h1 : k0 = k'
      · subst h1
        have : ¬k = k0 := fun hh => h0 hh.symm
        simp [this]
      · simp [h1, ih]

/-- The contribution of one continuation line under the dmesg.go rules:
first byte a space and the split on `=` has exactly two parts. -/
def lineContrib (line : List Nat) : Option (List Nat × List Nat) :=
  match line with
  | [] => none
  | c :: _ =>
    if c = 32 then
      match splitByte line 61 with
      | [k, v] => some (k, v)
      | _ => none
    else none

/-- The value for key `k` contributed by the last qualifying line, if any
(later lines take priority). -/
def lastValue (lines : List (List Nat)) (k : List Nat) : Option (List Nat) :=
  match lines with
  | [] => none
  | l :: ls =>
    match lastValue ls k with
    | some v => some v
    | none =>
      match lineContrib l with
      | some (k', v) => if k' = k then some v else none
      | none => none

/-- The device-info loop never panics on non-empty lines, and the
resulting map answers each key with the last qualifying line's value,
falling back to the initial map. -/
theorem buildInfo_sound (lines : List (List Nat)) (m0 : List (List Nat × List Nat))
    (h : ∀ l ∈ lines, l ≠ []) :
    ∃ mm, buildInfo lines m0 = some mm ∧
      ∀ k, mapGet mm k =
        match lastValue lines k with
        | some v => some v
        | none => mapGet m0 k := by
  induction lines generalizing m0 with
  | nil => exact ⟨m0, rfl, fun k => rfl⟩
  | cons l ls ih =>
    have hl : l ≠ [] := h l (List.mem_cons_self l ls)
    have hls : ∀ x ∈ ls, x ≠ [] := fun x hx => h x (List.mem_cons_of_mem l hx)
    match l, hl with
    | c :: cs, _ =>
      by_cases hc : c = 32
      · subst hc
        rcases hkv : splitByte (32 :: cs) 61 with _ | ⟨k0, _ | ⟨v0, _ | _⟩⟩
        · exact absurd hkv (splitByte_ne_nil _ _)
        · -- one piece: not exactly two, line ignored
          have hcon : lineContrib (32 :: cs) = none := by simp [lineContrib, hkv]
          obtain ⟨mm, hmm, hget⟩ := ih m0 hls
          refine ⟨mm, ?_, ?_⟩
          · simp [buildInfo, hkv, hmm]
          · intro k
            rcases hlv : lastValue ls k with _ | v <;>
              simp [lastValue, hcon, hlv, hget k]
        · -- exactly two pieces: qualifying line, inserted
          have hcon : lineContrib (32 :: cs) = some (k0, v0) := by
            simp [lineContrib, hkv]
          obtain ⟨mm, hmm, hget⟩ := ih (mapInsert m0 k0 v0) hls
          refine ⟨mm, ?_, ?_⟩
          · simp [buildInfo, hkv, hmm]
          · intro k
            rcases hlv : lastValue ls k with _ | v
            · simp only [lastValue, hcon, hlv, hget k, mapGet_mapInsert]
              by_cases hk : k0 = k <;> simp [hk]
            · simp [lastValue, hcon, hlv, hget k]
        · -- three or more pieces: line ignored
          have hcon : lineContrib (32 :: cs) = none := by simp [lineContrib, hkv]
          obtain ⟨mm, hmm, hget⟩ := ih m0 hls
          refine ⟨mm, ?_, ?_⟩
          · simp [buildInfo, hkv, hmm]
          · intro k
            rcases hlv : lastValue ls k with _ | v <;>
              simp [lastValue, hcon, hlv, hget k]
      · -- line does not start with a space: ignored
        have hcon : lineContrib (c :: cs) = none := by simp [lineContrib, hc]
        obtain ⟨mm, hmm, hget⟩ := ih m0 hls
        refine ⟨mm, ?_, ?_⟩
        · simp [buildInfo, hc, hmm]
        · intro k
          rcases hlv : lastValue ls k with _ | v <;>
            simp [lastValue, hcon, hlv, hget k]

/-! ## Helper lemmas: the fetch loop -/

/-- A freshly allocated all-zero buffer (an `EINVAL` read) parses as an
invalid record: it contains no semicolon. -/
theorem parseData_zeros (bufSize : Nat) : parseData (mkBuf bufSize []) = .invalid := by
  have h : (59 : Nat) ∉ mkBuf bufSize [] := by
    intro hm
    simp only [mkBuf, List.nil_append] at hm
    exact absurd (List.eq_of_mem_replicate (List.mem_of_mem_take hm)) (by norm_num)
  simp [parseData, indexByte_eq_none h]

/-- Raw-mode fetch: the loop appends one full buffer per consumed read
(including `EINVAL` reads) and stops at the first other error. -/
theorem fetchLoop_raw (bufSize : Nat) (reads : List ReadResult) (d : DmesgT) :
    fetchLoop bufSize true reads d =
      .done { raw := d.raw ++ (consumed reads).map (bufOf bufSize), msg := d.msg }
        (errOf reads) := by
  induction reads generalizing d with
  | nil => simp [fetchLoop, consumed, errOf]
  | cons r rest ih =>
    cases r with
    | ok data => simp [fetchLoop, appendRec, consumed, errOf, bufOf, ih]
    | errR e =>
      by_cases he : e = EINVAL
      · simp [fetchLoop, appendRec, consumed, errOf, bufOf, he, ih]
      · simp [fetchLoop, consumed, errOf, he]

/-- Parsed-mode fetch, assuming no consumed buffer makes the decoder
panic: the loop appends the message of each buffer the decoder accepts
and stops at the first non-`EINVAL` error. -/
theorem fetchLoop_parsed (bufSize : Nat) (reads : List ReadResult) (d : DmesgT)
    (hp : ∀ b ∈ (consumed reads).map (bufOf bufSize), parseData b ≠ .panic) :
    fetchLoop bufSize false reads d =
      .done { raw := d.raw,
              msg := d.msg ++ ((consumed reads).map (bufOf bufSize)).filterMap
                       (fun b => msgOf (parseData b)) }
        (errOf reads) := by
  induction reads generalizing d with
  | nil => simp [fetchLoop, consumed, errOf]
  | cons r rest ih =>
    cases r with
    | ok data =>
      have hb : parseData (mkBuf bufSize data) ≠ .panic :=
        hp _ (List.mem_cons_self _ _)
      have hrest : ∀ b ∈ (consumed rest).map (bufOf bufSize), parseData b ≠ .panic :=
        fun b hbm => hp b (List.mem_cons_of_mem _ hbm)
      cases hpd : parseData (mkBuf bufSize data) with
      | panic => exact absurd hpd hb
      | invalid =>
        simp [fetchLoop, appendRec, hpd, consumed, bufOf, errOf, msgOf, ih _ hrest]
      | ok m =>
        simp [fetchLoop, appendRec, hpd, consumed, bufOf, errOf, msgOf, ih _ hrest]
    | errR e =>
      by_cases he : e = EINVAL
      · have hcons : consumed (ReadResult.errR e :: rest) = .errR e :: consumed rest := by
          simp [consumed, he]
        have hrest : ∀ b ∈ (consumed rest).map (bufOf bufSize), parseData b ≠ .panic :=
          fun b hbm => hp b (by rw [hcons, List.map_cons]; exact List.mem_cons_of_mem _ hbm)
        simp [fetchLoop, appendRec, parseData_zeros, consumed, bufOf, errOf, he,
          msgOf, ih _ hrest]
      · simp [fetchLoop, consumed, errOf, he]

/-- Counting: when no buffer panics, the number of decoded messages is
the number of buffers minus the number the decoder rejects as invalid. -/
theorem filterMap_msg_length (bufs : List (List Nat))
    (hp : ∀ b ∈ bufs, parseData b ≠ .panic) :
    (bufs.filterMap (fun b => msgOf (parseData b))).length =
      bufs.length - (bufs.filter (fun b => (parseData b).isInvalid)).length := by
  induction bufs with
  | nil => rfl
  | cons b l ih =>
    have hb := hp b (List.mem_cons_self b l)
    have hl : ∀ x ∈ l, parseData x ≠ .panic := fun x hx => hp x (List.mem_cons_of_mem _ hx)
    have hle := List.length_filter_le (fun x => (parseData x).isInvalid) l
    cases hpd : parseData b with
    | panic => exact absurd hpd hb
    | invalid =>
      have h1 : msgOf (parseData b) = none := by rw [hpd]; rfl
      have h2 : (parseData b).isInvalid = true := by rw [hpd]; rfl
      simp [List.filterMap_cons, List.filter_cons, h1, h2, ih hl]
    | ok m =>
      have h1 : msgOf (parseData b) = some m := by rw [hpd]; rfl
      have h2 : (parseData b).isInvalid = false := by rw [hpd]; rfl
      simp [List.filterMap_cons, List.filter_cons, h1, h2, ih hl]
      omega

/-- Joining lines with newline separators (inverse image of `splitByte`). -/
def joinNL : List (List Nat) → List Nat
  | [] => []
  | [l] => l
  | l :: ls => l ++ 10 :: joinNL ls

theorem splitByte_joinNL (lines : List (List Nat)) (hne : lines ≠ [])
    (h10 : ∀ l ∈ lines, 10 ∉ l) : splitByte (joinNL lines) 10 = lines := by
  induction lines with
  | nil => exact absurd rfl hne
  | cons l ls ih =>
    cases ls with
    | nil => exact splitByte_of_not_mem (h10 l (List.mem_cons_self l []))
    | cons l2 ls2 =>
      rw [show joinNL (l :: l2 :: ls2) = l ++ 10 :: joinNL (l2 :: ls2) from rfl,
        splitByte_append_cons _ (h10 l (List.mem_cons_self l (l2 :: ls2))),
        ih (List.cons_ne_nil l2 ls2) (fun x hx => h10 x (List.mem_cons_of_mem l hx))]

theorem consumed_ok_append (datas : List (List Nat)) (e : Nat) (he : e ≠ EINVAL)
    (after : List ReadResult) :
    consumed (datas.map ReadResult.ok ++ .errR e :: after) = datas.map ReadResult.ok := by
  induction datas with
  | nil => simp [consumed, he]
  | cons d ds ih => simp [consumed, ih]

theorem errOf_ok_append (datas : List (List Nat)) (e : Nat) (he : e ≠ EINVAL)
    (he2 : e ≠ EAGAIN) (after : List ReadResult) :
    errOf (datas.map ReadResult.ok ++ .errR e :: after) = some e := by
  induction datas with
  | nil => simp [errOf, he, he2]
  | cons d ds ih => simp [errOf, ih]

/-! ## Claim theorems -/

/-- C1, counterexample: on the record `1,1,1,-,c;t\n` — a record whose
first `\n` after the first `;` is its last byte — the decoder returns the
invalid-record signal, not a message with an empty device-info mapping as
the claim states (dmesg.go line 68-70 returns `nil` in this case). -/
theorem c1_counterexample :
    parseData [49, 44, 49, 44, 49, 44, 45, 44, 99, 59, 116, 10] = .invalid := by
  decide

/-- C1, amended: every record whose first `\n` occurs strictly after the
first `;` and is the last byte of the record is rejected by the decoder as
an invalid record (no message is produced), provided the fourth
comma-separated prefix field, when present, is non-empty (an empty fourth
field makes the prefix loop panic before this check is reached). -/
theorem c1_newline_last_byte_invalid (data : List Nat) (p t : Nat)
    (h59 : indexByte data 59 = some p) (h10 : indexByte data 10 = some t)
    (hpt : p < t) (hlast : t = data.length - 1)
    (hf3 : (splitByte (data.take p) 44)[3]? ≠ some []) :
    parseData data = .invalid := by
  obtain ⟨m0, hm0⟩ := parsePrefixFields_ne_none hf3
  have h1 : ¬t ≤ p := not_le.mpr hpt
  simp only [parseData, h59, hm0, h10]
  rw [if_neg h1, if_pos hlast]

/-- C1, witness: the amended theorem applied to the record `6,2,3,-;h\n`. -/
theorem c1_newline_last_byte_invalid_witness :
    parseData [54, 44, 50, 44, 51, 44, 45, 59, 104, 10] = .invalid :=
  c1_newline_last_byte_invalid [54, 44, 50, 44, 51, 44, 45, 59, 104, 10] 7 9
    (by decide) (by decide) (by decide) (by decide) (by decide)

/-- C2 (code bug): the decoder does not terminate normally on every input
byte sequence: on the record `0;t\n\nAB` the device-info loop reads
`info[0]` of the empty continuation line and panics with an
index-out-of-range runtime error (dmesg.go line 75); likewise `,,,;`
panics at `prefix[0]` (line 56) on the empty fourth prefix field. -/
theorem c2_decoder_panics :
    parseData [48, 59, 116, 10, 10, 65, 66] = .panic := by decide

/-- C3 (code bug): a fetch trace of one decodable record, one too-small
(`EINVAL`) read and the terminating no-more-data (`EAGAIN`) read returns a
nil error and the record of the successful read, but carries no truncation
indication whatsoever: the result is identical to the same call without
the `EINVAL` read, because `fetch` returns only `(dmesg, error)` — there
is no truncated flag — and the `syscallError` holding `EINVAL` is
overwritten by the final `EAGAIN` (dmesg.go lines 110-138), contradicting
the package documentation that callers see `syscall.EINVAL` when the
buffer is too small. -/
theorem c3_truncation_unreported :
    fetch 16 false
        [.ok [49, 44, 50, 44, 51, 44, 45, 44, 99, 59, 111, 107, 10, 65, 66],
         .errR 22, .errR 11] =
      .done { raw := [],
              msg := [{ Level := 1, Facility := 0, Seq := 2, TsUsec := 3,
                        Caller := [99], IsFragment := false,
                        Text := [111, 107], DeviceInfo := [] }] } none ∧
    fetch 16 false
        [.ok [49, 44, 50, 44, 51, 44, 45, 44, 99, 59, 111, 107, 10, 65, 66],
         .errR 11] =
      .done { raw := [],
              msg := [{ Level := 1, Facility := 0, Seq := 2, TsUsec := 3,
                        Caller := [99], IsFragment := false,
                        Text := [111, 107], DeviceInfo := [] }] } none :=
  ⟨by decide, by decide⟩

/-- C5, counterexample: the input `,,,;` contains a `;` and no `\n`, so by
the claim the decoder should return the invalid-record signal; instead the
prefix loop panics (index out of range on the empty fourth field,
dmesg.go line 56) before the newline check is reached. -/
theorem c5_counterexample : parseData [44, 44, 44, 59] = .panic := by decide

/-- C5, amended: a record with no `;`, and a record with a `;` but no `\n`
or whose first `\n` occurs at or before the first `;`, is rejected as
invalid — provided, in the cases where a `;` exists, that the fourth
comma-separated prefix field, when present, is non-empty (otherwise the
prefix loop panics before the newline check). -/
theorem c5_structural_rejects (data : List Nat)
    (h : indexByte data 59 = none ∨
      ∃ p, indexByte data 59 = some p ∧ (splitByte (data.take p) 44)[3]? ≠ some [] ∧
        (indexByte data 10 = none ∨ ∃ t, indexByte data 10 = some t ∧ t ≤ p)) :
    parseData data = .invalid := by
  rcases h with h | ⟨p, hp, hf3, h10⟩
  · simp [parseData, h]
  · obtain ⟨m0, hm0⟩ := parsePrefixFields_ne_none hf3
    rcases h10 with h10 | ⟨t, ht, htp⟩
    · simp [parseData, hp, hm0, h10]
    · simp only [parseData, hp, hm0, ht]
      rw [if_pos htp]

/-- C5, witness: the amended theorem applied to `abc` (no semicolon). -/
theorem c5_structural_rejects_witness : parseData [97, 98, 99] = .invalid :=
  c5_structural_rejects [97, 98, 99] (Or.inl (by decide))

/-- C4, counterexample: the record `6,1,2,-,c;t\n`, of exactly the claimed
prefix form, is rejected as invalid (its first `\n` is its last byte), so
decoding does not yield the claimed field values for every record of that
form. -/
theorem c4_counterexample :
    parseData [54, 44, 49, 44, 50, 44, 45, 44, 99, 59, 116, 10] = .invalid := by
  decide

/-- C4, amended: for every record `L,S,T,F,C[,extras];text\n rest` — with
`L`, `S` decimal numerals of 64-bit unsigned values, `T` a signed decimal
numeral of an `int64` value, `F` non-empty, the fields free of the
delimiters, the record extending past the first `\n` (`rest` non-empty),
and no empty continuation segment (which would panic) — decoding yields
`Level = L &&& 7`, `Facility = L &&& (2^64 - 8)` (the 64-bit complement
mask of 7), `Seq = S`, `TsUsec = T`, `Caller = C`, `IsFragment` true iff
the first byte of `F` is not a dash, and `Text` equal to the bytes
strictly between the first `;` and the first `\n`; prefix fields at index
5 and beyond (`ext`) do not affect the result. -/
theorem c4_prefix_fields_decoded
    (f0 f1 f2 F C ext text rest : List Nat) (L S : Nat) (T : Int)
    (hf0d : allDigits f0) (hf0n : f0 ≠ []) (hf0v : digitsVal f0 = L) (hL : L < 2 ^ 64)
    (hf1d : allDigits f1) (hf1n : f1 ≠ []) (hf1v : digitsVal f1 = S) (hS : S < 2 ^ 64)
    (hT : (allDigits f2 ∧ f2 ≠ [] ∧ (digitsVal f2 : Int) = T ∧ digitsVal f2 < 2 ^ 63) ∨
          (∃ u, f2 = 45 :: u ∧ allDigits u ∧ u ≠ [] ∧ -(digitsVal u : Int) = T ∧
            digitsVal u ≤ 2 ^ 63))
    (hFn : F ≠ []) (hF44 : 44 ∉ F) (hF59 : 59 ∉ F) (hF10 : 10 ∉ F)
    (hC44 : 44 ∉ C) (hC59 : 59 ∉ C) (hC10 : 10 ∉ C)
    (hext : ext = [] ∨ ∃ e, ext = 44 :: e) (hext59 : 59 ∉ ext) (hext10 : 10 ∉ ext)
    (htext : 10 ∉ text) (hrest : rest ≠ [])
    (hlines : ∀ piece ∈ splitByte rest.dropLast 10, piece ≠ []) :
    ∃ m,
      parseData ((f0 ++ 44 :: (f1 ++ 44 :: (f2 ++ 44 :: (F ++ 44 :: (C ++ ext))))) ++
          59 :: (text ++ 10 :: rest)) = .ok m ∧
      m.Level = L &&& 7 ∧ m.Facility = L &&& (2 ^ 64 - 8) ∧ m.Seq = S ∧
      m.TsUsec = T ∧ m.Caller = C ∧ m.IsFragment = (F.headD 0 != 45) ∧
      m.Text = text := by
  have sep0 : ∀ {s : List Nat}, allDigits s → 44 ∉ s ∧ 59 ∉ s ∧ 10 ∉ s := by
    intro s hs
    refine ⟨?_, ?_, ?_⟩ <;> intro hm <;> have := hs _ hm <;> omega
  obtain ⟨h044, h059, h010⟩ := sep0 hf0d
  obtain ⟨h144, h159, h110⟩ := sep0 hf1d
  have hf2sep : 44 ∉ f2 ∧ 59 ∉ f2 ∧ 10 ∉ f2 := by
    rcases hT with ⟨hd, -, -, -⟩ | ⟨u, hu, hd, -, -, -⟩
    · exact sep0 hd
    · subst hu
      obtain ⟨a, b, c⟩ := sep0 hd
      refine ⟨?_, ?_, ?_⟩ <;> simp [List.mem_cons, a, b, c]
  obtain ⟨h244, h259, h210⟩ := hf2sep
  have h59pre : 59 ∉ f0 ++ 44 :: (f1 ++ 44 :: (f2 ++ 44 :: (F ++ 44 :: (C ++ ext)))) := by
    simp [List.mem_append, List.mem_cons, h059, h159, h259, hF59, hC59, hext59]
  have h10pre : 10 ∉ f0 ++ 44 :: (f1 ++ 44 :: (f2 ++ 44 :: (F ++ 44 :: (C ++ ext)))) := by
    simp [List.mem_append, List.mem_cons, h010, h110, h210, hF10, hC10, hext10]
  have hsplit : ∃ ts,
      splitByte (f0 ++ 44 :: (f1 ++ 44 :: (f2 ++ 44 :: (F ++ 44 :: (C ++ ext))))) 44 =
        f0 :: f1 :: f2 :: F :: C :: ts := by
    rcases hext with he | ⟨e', he⟩
    · subst he
      rw [splitByte_append_cons _ h044, splitByte_append_cons _ h144,
        splitByte_append_cons _ h244, splitByte_append_cons _ hF44,
        List.append_nil, splitByte_of_not_mem hC44]
      exact ⟨[], rfl⟩
    · subst he
      rw [splitByte_append_cons _ h044, splitByte_append_cons _ h144,
        splitByte_append_cons _ h244, splitByte_append_cons _ hF44,
        splitByte_append_cons _ hC44]
      exact ⟨splitByte e' 44, rfl⟩
  obtain ⟨ts, hts⟩ := hsplit
  obtain ⟨fc, fcs, hF⟩ : ∃ c cs, F = c :: cs := by
    cases F with
    | nil => exact absurd rfl hFn
    | cons c cs => exact ⟨c, cs, rfl⟩
  subst hF
  have hU0 : goParseUint f0 = L := by
    rw [goParseUint_digits hf0n hf0d (by rw [hf0v]; exact hL), hf0v]
  have hU1 : goParseUint f1 = S := by
    rw [goParseUint_digits hf1n hf1d (by rw [hf1v]; exact hS), hf1v]
  have hI2 : goParseInt f2 = T := by
    rcases hT with ⟨hd, hn, hv, hb⟩ | ⟨u, hu, hd, hn, hv, hb⟩
    · rw [goParseInt_digits hn hd hb, hv]
    · subst hu
      rw [goParseInt_neg_digits hn hd hb, hv]
  obtain ⟨mm, hbi, -⟩ := buildInfo_sound (splitByte rest.dropLast 10) [] hlines
  have hdec := parseData_decomp _ text rest h59pre h10pre htext hrest
  rw [hts, parsePrefixFields_cons5 f0 f1 f2 C fc fcs ts, hbi] at hdec
  refine ⟨_, hdec, ?_, ?_, ?_, ?_, ?_, ?_, ?_⟩ <;>
    simp [hU0, hU1, hI2]

/-- C4, witness: the amended theorem applied to the record
`6,15,-7,-,c,x;t\nAB`. -/
theorem c4_prefix_fields_decoded_witness :
    ∃ m,
      parseData (([54] ++ 44 :: ([49, 53] ++ 44 :: ([45, 55] ++ 44 ::
          ([45] ++ 44 :: ([99] ++ [44, 120]))))) ++ 59 :: ([116] ++ 10 :: [65, 66])) =
        .ok m ∧
      m.Level = 6 &&& 7 ∧ m.Facility = 6 &&& (2 ^ 64 - 8) ∧ m.Seq = 15 ∧
      m.TsUsec = -7 ∧ m.Caller = [99] ∧ m.IsFragment = ([45].headD 0 != 45) ∧
      m.Text = [116] :=
  c4_prefix_fields_decoded [54] [49, 53] [45, 55] [45] [99] [44, 120] [116] [65, 66]
    6 15 (-7)
    (by decide) (by decide) (by decide) (by decide)
    (by decide) (by decide) (by decide) (by decide)
    (Or.inr ⟨[55], rfl, by decide, by decide, by decide, by decide⟩)
    (by decide) (by decide) (by decide) (by decide)
    (by decide) (by decide) (by decide)
    (Or.inr ⟨[120], rfl⟩) (by decide) (by decide)
    (by decide) (by decide) (by decide)

/-- C6, counterexample: a successful read of the record `,,,;` followed by
a fatal error (errno 5): instead of returning the accumulated records with
a non-nil error, the parsed-mode fetch panics inside the decoder, so the
claim fails on read sequences whose records make `parseData` panic. -/
theorem c6_counterexample :
    fetch 8 false [.ok [44, 44, 44, 59], .errR 5] = .panic := by decide

/-- C6, amended: for every fetch whose read trace is some successful reads
followed by a fatal failure (errno neither `EINVAL` nor `EAGAIN`) — and,
in parsed mode, none of whose buffers makes the decoder panic — the loop
stops at the failure (later reads are irrelevant), the call's error is
that failure, and the result contains exactly the records accumulated
before the failure. -/
theorem c6_fatal_error_partial_results (bufSize : Nat) (fetchRaw : Bool)
    (datas : List (List Nat)) (e : Nat) (after : List ReadResult)
    (he1 : e ≠ EINVAL) (he2 : e ≠ EAGAIN)
    (hp : fetchRaw = false → ∀ d ∈ datas, parseData (mkBuf bufSize d) ≠ .panic) :
    fetch bufSize fetchRaw (datas.map ReadResult.ok ++ .errR e :: after) =
      .done { raw := if fetchRaw then datas.map (mkBuf bufSize) else [],
              msg := if fetchRaw then []
                     else datas.filterMap (fun d => msgOf (parseData (mkBuf bufSize d))) }
        (some e) := by
  cases fetchRaw with
  | false =>
    have hp' := hp rfl
    have hpm : ∀ b ∈ (consumed (datas.map ReadResult.ok ++ .errR e :: after)).map
        (bufOf bufSize), parseData b ≠ .panic := by
      rw [consumed_ok_append datas e he1 after]
      intro b hb
      rw [List.map_map] at hb
      obtain ⟨d, hd, rfl⟩ := List.mem_map.mp hb
      exact hp' d hd
    rw [fetch, fetchLoop_parsed _ _ _ hpm, consumed_ok_append datas e he1 after,
      errOf_ok_append datas e he1 he2 after]
    simp only [List.map_map, List.filterMap_map, List.nil_append]
    rfl
  | true =>
    rw [fetch, fetchLoop_raw, consumed_ok_append datas e he1 after,
      errOf_ok_append datas e he1 he2 after]
    simp only [List.map_map, List.append_nil, List.nil_append]
    rfl

/-- C6, witness: two decodable records, then a fatal errno-5 read, then an
ignored further read; the two messages are returned with error 5. -/
theorem c6_fatal_error_partial_results_witness :
    fetch 16 false
        ([[49, 44, 50, 44, 51, 44, 45, 44, 99, 59, 111, 107, 10, 65, 66],
          [54, 44, 55, 44, 56, 44, 120, 59, 104, 105, 10, 90, 90]].map ReadResult.ok ++
          .errR 5 :: [.ok [49]]) =
      .done { raw := if false then
                [[49, 44, 50, 44, 51, 44, 45, 44, 99, 59, 111, 107, 10, 65, 66],
                 [54, 44, 55, 44, 56, 44, 120, 59, 104, 105, 10, 90, 90]].map (mkBuf 16)
              else [],
              msg := if false then []
                     else [[49, 44, 50, 44, 51, 44, 45, 44, 99, 59, 111, 107, 10, 65, 66],
                           [54, 44, 55, 44, 56, 44, 120, 59, 104, 105, 10, 90, 90]].filterMap
                       (fun d => msgOf (parseData (mkBuf 16 d))) }
        (some 5) :=
  c6_fatal_error_partial_results 16 false
    [[49, 44, 50, 44, 51, 44, 45, 44, 99, 59, 111, 107, 10, 65, 66],
     [54, 44, 55, 44, 56, 44, 120, 59, 104, 105, 10, 90, 90]] 5 [.ok [49]]
    (by decide) (by decide) (fun _ => by decide)

/-- C7, counterexample: over the reads `[ok ",,,;", EAGAIN]`, raw-mode
fetch returns one record and the decoder panics on that record (it does
not reject it as invalid), so parsed-mode fetch has no record count at
all: it panics. -/
theorem c7_counterexample :
    fetch 8 false [.ok [44, 44, 44, 59], .errR 11] = .panic ∧
    fetch 8 true [.ok [44, 44, 44, 59], .errR 11] =
      .done { raw := [[44, 44, 44, 59, 0, 0, 0, 0]], msg := [] } none ∧
    parseData [44, 44, 44, 59, 0, 0, 0, 0] = .panic :=
  ⟨by decide, by decide, by decide⟩

/-- C7, amended: over any read trace none of whose consumed buffers makes
the decoder panic, raw-mode and parsed-mode fetch both complete, and the
parsed-mode record count equals the raw-mode record count minus the
number of raw-mode records the decoder rejects as invalid. -/
theorem c7_parsed_raw_count (bufSize : Nat) (reads : List ReadResult)
    (hp : ∀ b ∈ (consumed reads).map (bufOf bufSize), parseData b ≠ .panic) :
    ∃ dr er dm em,
      fetch bufSize true reads = .done dr er ∧
      fetch bufSize false reads = .done dm em ∧
      dm.msg.length =
        dr.raw.length - (dr.raw.filter (fun b => (parseData b).isInvalid)).length := by
  refine ⟨_, _, _, _, by rw [fetch, fetchLoop_raw], by rw [fetch, fetchLoop_parsed _ _ _ hp],
    ?_⟩
  simp only [List.nil_append]
  exact filterMap_msg_length _ hp

/-- C7, witness: one decodable record, one `EINVAL` read (whose all-zero
buffer is invalid), one undecodable record, then `EAGAIN`: raw count 3,
two records rejected as invalid, parsed count 1. -/
theorem c7_parsed_raw_count_witness :
    ∃ dr er dm em,
      fetch 16 true [.ok [49, 44, 50, 44, 51, 44, 45, 44, 99, 59, 111, 107, 10, 65, 66],
          .errR 22, .ok [122, 122, 122], .errR 11] = .done dr er ∧
      fetch 16 false [.ok [49, 44, 50, 44, 51, 44, 45, 44, 99, 59, 111, 107, 10, 65, 66],
          .errR 22, .ok [122, 122, 122], .errR 11] = .done dm em ∧
      dm.msg.length =
        dr.raw.length - (dr.raw.filter (fun b => (parseData b).isInvalid)).length :=
  c7_parsed_raw_count 16
    [.ok [49, 44, 50, 44, 51, 44, 45, 44, 99, 59, 111, 107, 10, 65, 66],
     .errR 22, .ok [122, 122, 122], .errR 11] (by decide)

/-- C8, counterexample: in the record `0;t\n a=b=cZ`, the continuation
line ` a=b=c` starts with a space and splitting it ONCE on `=` yields
exactly the two parts ` a` and `b=c`, yet the decoder stores nothing: the
Go code splits on every `=` (three parts here) and ignores the line, so
the resulting device-info mapping is empty. -/
theorem c8_counterexample :
    parseData [48, 59, 116, 10, 32, 97, 61, 98, 61, 99, 90] =
      .ok { Level := 0, Facility := 0, Seq := 0, TsUsec := 0, Caller := [],
            IsFragment := false, Text := [116], DeviceInfo := [] } := by decide

/-- C8, amended: for a record whose device-info block consists of
non-empty continuation lines (each free of `\n`, terminated by a final
`\n`), a line contributes to the mapping iff its first byte is a space
and splitting it on `=` (at every occurrence) yields exactly two parts —
i.e. it contains exactly one `=` — in which case the two parts are the
key and value; other lines are ignored without error, and for every key
the mapping holds the value of the last qualifying line for it. -/
theorem c8_device_info_lines (p text : List Nat) (lines : List (List Nat))
    (h59 : 59 ∉ p) (h10p : 10 ∉ p)
    (hf3 : (splitByte p 44)[3]? ≠ some [])
    (htext : 10 ∉ text)
    (hln : lines ≠ []) (hlne : ∀ l ∈ lines, l ≠ []) (hl10 : ∀ l ∈ lines, 10 ∉ l) :
    ∃ m, parseData (p ++ 59 :: (text ++ 10 :: (joinNL lines ++ [10]))) = .ok m ∧
      ∀ k, mapGet m.DeviceInfo k = lastValue lines k := by
  have hrest : joinNL lines ++ [10] ≠ [] := by simp
  have hdec := parseData_decomp p text (joinNL lines ++ [10]) h59 h10p htext hrest
  rw [List.dropLast_concat, splitByte_joinNL lines hln hl10] at hdec
  obtain ⟨m0, hm0⟩ := parsePrefixFields_ne_none hf3
  obtain ⟨mm, hbi, hget⟩ := buildInfo_sound lines [] hlne
  rw [hm0, hbi] at hdec
  refine ⟨_, hdec, ?_⟩
  intro k
  show mapGet mm k = lastValue lines k
  rw [hget k]
  cases lastValue lines k <;> rfl

/-- C8, witness: the amended theorem on the record
`0;t\n k=v\nx=y\n j\n k=w\n` — only the space-starting single-`=` lines
` k=v` and ` k=w` qualify, and the repeated key ` k` keeps the last
value `w`. -/
theorem c8_device_info_lines_witness :
    ∃ m, parseData ([48] ++ 59 :: ([116] ++ 10 ::
        (joinNL [[32, 107, 61, 118], [120, 61, 121], [32, 106], [32, 107, 61, 119]] ++
          [10]))) = .ok m ∧
      ∀ k, mapGet m.DeviceInfo k =
        lastValue [[32, 107, 61, 118], [120, 61, 121], [32, 106], [32, 107, 61, 119]] k :=
  c8_device_info_lines [48] [116]
    [[32, 107, 61, 118], [120, 61, 121], [32, 106], [32, 107, 61, 119]]
    (by decide) (by decide) (by decide) (by decide) (by decide) (by decide) (by decide)

/-- C9 (implicit behaviour, confirmed): in raw mode the result is exactly
one buffer per consumed read — each the entire freshly allocated buffer of
length `bufSize`, the read's bytes at the front and zeros beyond (the
returned byte count is discarded) — and a read failing with `EINVAL`
contributes its untouched all-zero buffer as an element rather than being
skipped. -/
theorem c9_raw_mode_buffers (bufSize : Nat) (reads : List ReadResult) :
    ∃ e, fetch bufSize true reads =
        .done { raw := (consumed reads).map (bufOf bufSize), msg := [] } e ∧
      (∀ b ∈ (consumed reads).map (bufOf bufSize), b.length = bufSize) ∧
      bufOf bufSize (.errR EINVAL) = List.replicate bufSize 0 := by
  refine ⟨errOf reads, ?_, ?_, ?_⟩
  · rw [fetch, fetchLoop_raw]
    rfl
  · intro b hb
    obtain ⟨r, hr, rfl⟩ := List.mem_map.mp hb
    cases r <;> simp [bufOf, mkBuf]
  · simp [bufOf, mkBuf]

/-- C10 (implicit behaviour, confirmed): a qualifying continuation line
` k=v` stores the untrimmed part before the `=` — the key INCLUDING the
leading space byte — and no entry is stored under the trimmed key. -/
theorem c10_key_keeps_leading_space (p text k v : List Nat)
    (h59 : 59 ∉ p) (h10p : 10 ∉ p) (hf3 : (splitByte p 44)[3]? ≠ some [])
    (htext : 10 ∉ text)
    (hk61 : 61 ∉ k) (hk10 : 10 ∉ k) (hv61 : 61 ∉ v) (hv10 : 10 ∉ v) :
    ∃ m, parseData (p ++ 59 :: (text ++ 10 :: ((32 :: k ++ 61 :: v) ++ [10]))) = .ok m ∧
      mapGet m.DeviceInfo (32 :: k) = some v ∧ mapGet m.DeviceInfo k = none := by
  have hrest : (32 :: k ++ 61 :: v) ++ [10] ≠ [] := by simp
  have hdec := parseData_decomp p text ((32 :: k ++ 61 :: v) ++ [10]) h59 h10p htext hrest
  have h10line : (10 : Nat) ∉ 32 :: k ++ 61 :: v := by
    simp [List.mem_cons, List.mem_append, hk10, hv10]
  rw [List.dropLast_concat, splitByte_of_not_mem h10line] at hdec
  obtain ⟨m0, hm0⟩ := parsePrefixFields_ne_none hf3
  have hsplit61 : splitByte (32 :: k ++ 61 :: v) 61 = [32 :: k, v] := by
    rw [show (32 :: k ++ 61 :: v : List Nat) = (32 :: k) ++ 61 :: v from rfl,
      splitByte_append_cons _ (by simp [List.mem_cons, hk61]),
      splitByte_of_not_mem hv61]
  have hbi : buildInfo [32 :: k ++ 61 :: v] [] = some [(32 :: k, v)] := by
    unfold buildInfo
    rw [hsplit61]
    rfl
  rw [hm0, hbi] at hdec
  refine ⟨_, hdec, ?_, ?_⟩
  · show mapGet [(32 :: k, v)] (32 :: k) = some v
    simp [mapGet]
  · show mapGet [(32 :: k, v)] k = none
    have hne : ¬(32 :: k) = k := by
      intro hh
      exact absurd (congrArg List.length hh) (by simp)
    simp [mapGet, hne]

/-- C10, witness: the theorem applied to the record `0;t\n k=v\n`: the
stored key is ` k` (with the space), and `k` alone is absent. -/
theorem c10_key_keeps_leading_space_witness :
    ∃ m, parseData ([48] ++ 59 :: ([116] ++ 10 ::
        ((32 :: [107] ++ 61 :: [118]) ++ [10]))) = .ok m ∧
      mapGet m.DeviceInfo (32 :: [107]) = some [118] ∧ mapGet m.DeviceInfo [107] = none :=
  c10_key_keeps_leading_space [48] [116] [107] [118]
    (by decide) (by decide) (by decide) (by decide)
    (by decide) (by decide) (by decide) (by decide)
